import Mathlib

/-!
Verification of the PackKit registry proxy against its specification.

The definitions below are shallow embeddings of the JavaScript source of the
repository (src/backend/server.js, src/backend/services/rag.js,
src/backend/services/scraper.js, src/backend/services/ai.js).  JavaScript
strings are embedded as `List Char` (one element per UTF-16 code unit; all
inputs of interest are ASCII) or as Lean `String` where substring arithmetic
is not needed; JavaScript numbers are embedded as `ℚ` for the ranking logic
and as `ℝ` for the cosine-similarity analysis; fallible operations are
embedded as explicit result values.
-/

namespace Packkit

/-! ## String primitives shared by the URL-rewriting embeddings

`containsSubstr s pat` embeds JavaScript `s.includes(pat)`;
`replaceFirst s pat repl` embeds `s.replace(pat, repl)` with a plain-string
pattern, which replaces only the leftmost occurrence. -/

def containsSubstr : (s pat : List Char) → Bool
  | [], pat => pat.isEmpty
  | c :: rest, pat => pat.isPrefixOf (c :: rest) || containsSubstr rest pat

def replaceFirst : (s pat repl : List Char) → List Char
  | [], pat, repl => if pat.isEmpty then repl else []
  | c :: rest, pat, repl =>
    if pat.isPrefixOf (c :: rest) then repl ++ (c :: rest).drop pat.length
    else c :: replaceFirst rest pat repl

theorem isPrefixOf_append (l t : List Char) : l.isPrefixOf (l ++ t) = true := by
  induction l with
  | nil => simp [List.isPrefixOf]
  | cons c cs ih => simp [List.isPrefixOf, ih]

theorem containsSubstr_nil_pat (s : List Char) : containsSubstr s [] = true := by
  cases s with
  | nil => rfl
  | cons c cs => simp [containsSubstr, List.isPrefixOf]

theorem containsSubstr_middle (pre pat post : List Char) :
    containsSubstr (pre ++ pat ++ post) pat = true := by
  induction pre with
  | nil =>
    cases pat with
    | nil => simpa using containsSubstr_nil_pat post
    | cons p ps =>
      simp only [List.nil_append, List.cons_append, containsSubstr]
      have h := isPrefixOf_append (p :: ps) post
      simp only [List.cons_append] at h
      simp [h]
  | cons c cs ih =>
    simp only [List.cons_append, containsSubstr]
    simp only [List.append_assoc] at ih ⊢
    simp [ih]

theorem replaceFirst_of_not_contains (s pat repl : List Char)
    (h : containsSubstr s pat = false) : replaceFirst s pat repl = s := by
  induction s with
  | nil =>
    simp only [containsSubstr] at h
    simp [replaceFirst, h]
  | cons c cs ih =>
    simp only [containsSubstr, Bool.or_eq_false_iff] at h
    simp [replaceFirst, h.1, ih h.2]

/-! ## Tarball URL rewriting  (src/backend/server.js, GET /:name)

The online branch (lines 196-201) rewrites each `versions[v].dist.tarball`
with `url.replace(UPSTREAM_URL, 'http://' + req.headers.host)`, a
plain-string replace of the first occurrence.  The offline branch
(lines 212-219) runs, for each tarball URL,

```js
if (!dist.tarball.includes(currentHost)) {
  dist.tarball = dist.tarball.replace(/http:\/\/[^\/]+/, currentHost);
}
```

`httpMatchAt s` decides whether the regex `http:\/\/[^\/]+` matches at the
start of `s` (the literal `http://` followed by a maximal nonempty run of
non-`/` characters) and returns the text after the match;
`replaceFirstHttpAuth` substitutes the replacement at the leftmost matching
position, exactly as `String.prototype.replace` with a non-global regex. -/

def UPSTREAM_URL : List Char := "https://registry.npmjs.org".toList

def httpMatchAt (s : List Char) : Option (List Char) :=
  if "http://".toList.isPrefixOf s then
    if ((s.drop 7).takeWhile (fun ch => ch != '/')).isEmpty then none
    else some ((s.drop 7).drop ((s.drop 7).takeWhile (fun ch => ch != '/')).length)
  else none

def replaceFirstHttpAuth : (s repl : List Char) → List Char
  | [], _ => []
  | c :: rest, repl =>
    match httpMatchAt (c :: rest) with
    | some after => repl ++ after
    | none => c :: replaceFirstHttpAuth rest repl

/-- One metadata document version entry: the key of the `versions` object and
its `dist.tarball` URL (the only field the routes touch). -/
structure VersionDist where
  version : List Char
  tarball : List Char
  deriving DecidableEq

/-- A cached/upstream metadata document, reduced to the fields the proxy
routes read and write: the `versions[v].dist.tarball` URLs in object-key
order. -/
abbrev MetadataDoc := List VersionDist

/-- Online rewrite of one tarball URL (server.js 197-200):
`tarball.replace(UPSTREAM_URL, 'http://' + host)`. -/
def onlineRewriteUrl (host u : List Char) : List Char :=
  replaceFirst u UPSTREAM_URL ("http://".toList ++ host)

def onlineRewriteDoc (host : List Char) (doc : MetadataDoc) : MetadataDoc :=
  doc.map fun vd => { vd with tarball := onlineRewriteUrl host vd.tarball }

/-- Offline rewrite of one tarball URL (server.js 213-218);
`currentHost = 'http://' + req.headers.host`. -/
def offlineRewriteUrl (host u : List Char) : List Char :=
  if containsSubstr u ("http://".toList ++ host) then u
  else replaceFirstHttpAuth u ("http://".toList ++ host)

def offlineRewriteDoc (host : List Char) (doc : MetadataDoc) : MetadataDoc :=
  doc.map fun vd => { vd with tarball := offlineRewriteUrl host vd.tarball }

/-- The `GET /:name` handler (server.js 187-224), as a function of the
upstream fetch outcome and the persisted metadata file: returns the HTTP
status and the JSON document sent (the online branch also persists the
rewritten document, which does not affect the response).  `none` upstream
means the `axios.get` threw; `none` persisted means `fs.existsSync` was
false. -/
def metadataHandler (upstream persisted : Option MetadataDoc) (host : List Char) :
    Nat × Option MetadataDoc :=
  match upstream with
  | some data => (200, some (onlineRewriteDoc host data))
  | none =>
    match persisted with
    | some cached => (200, some (offlineRewriteDoc host cached))
    | none => (502, none)

/-- Claim-side extraction: the scheme+authority portion of a URL of the form
`http://<authority>/...` is `http://` plus the run of characters up to the
next `/`; returned as the authority alone for comparison with the request
host. -/
def urlAuthority (u : List Char) : List Char :=
  if "http://".toList.isPrefixOf u then (u.drop 7).takeWhile (fun ch => ch != '/')
  else []

theorem takeWhile_append_stop {p : Char → Bool} (A r : List Char) (x : Char)
    (hA : ∀ ch ∈ A, p ch = true) (hx : p x = false) :
    (A ++ x :: r).takeWhile p = A := by
  induction A with
  | nil => simp [List.takeWhile, hx]
  | cons a as ih =>
    have ha := hA a (by simp)
    simp only [List.cons_append, List.takeWhile, ha]
    simp [ih fun ch hch => hA ch (by simp [hch])]

theorem replaceFirstHttpAuth_shape (s repl : List Char) :
    replaceFirstHttpAuth s repl = s ∨
      ∃ pre post, replaceFirstHttpAuth s repl = pre ++ repl ++ post := by
  induction s with
  | nil => exact Or.inl rfl
  | cons c rest ih =>
    cases hm : httpMatchAt (c :: rest) with
    | some after =>
      refine Or.inr ⟨[], after, ?_⟩
      simp [replaceFirstHttpAuth, hm]
    | none =>
      rcases ih with h | ⟨pre, post, h⟩
      · exact Or.inl (by simp [replaceFirstHttpAuth, hm, h])
      · exact Or.inr ⟨c :: pre, post, by simp [replaceFirstHttpAuth, hm, h]⟩

theorem offlineRewriteUrl_idem (host u : List Char) :
    offlineRewriteUrl host (offlineRewriteUrl host u) = offlineRewriteUrl host u := by
  by_cases h : containsSubstr u ("http://".toList ++ host) = true
  · have hu : offlineRewriteUrl host u = u := by rw [offlineRewriteUrl, if_pos h]
    rw [hu]
    exact hu
  · have hu : offlineRewriteUrl host u = replaceFirstHttpAuth u ("http://".toList ++ host) := by
      rw [offlineRewriteUrl, if_neg h]
    rw [hu]
    rcases replaceFirstHttpAuth_shape u ("http://".toList ++ host) with hs | ⟨pre, post, hs⟩
    · rw [hs, hu, hs]
    · have hc : containsSubstr (replaceFirstHttpAuth u ("http://".toList ++ host))
          ("http://".toList ++ host) = true := by
        rw [hs]; exact containsSubstr_middle pre _ post
      rw [offlineRewriteUrl, if_pos hc]

/-- Sufficient condition under which the offline rewrite really lands the
URL's scheme+authority on the request host: the URL has the well-formed shape
`http://<authority>/<path>`, and either it already begins with
`http://<host>/`, or the string `http://<host>` does not occur in it at all
(the `includes` guard at server.js 216 skips the rewrite whenever
`http://<host>` occurs anywhere, even inside a longer authority). -/
def rewriteSafe (host u : List Char) : Prop :=
  (∀ ch ∈ host, ch ≠ '/') ∧
  ((∃ rest, u = "http://".toList ++ (host ++ '/' :: rest)) ∨
   (containsSubstr u ("http://".toList ++ host) = false ∧
    ∃ A rest, A ≠ [] ∧ (∀ ch ∈ A, ch ≠ '/') ∧
      u = "http://".toList ++ (A ++ '/' :: rest)))

theorem urlAuthority_http (A rest : List Char) (hA : ∀ ch ∈ A, ch ≠ '/') :
    urlAuthority ("http://".toList ++ (A ++ '/' :: rest)) = A := by
  rw [urlAuthority, if_pos (isPrefixOf_append _ _),
    show (7 : Nat) = ("http://".toList).length from rfl, List.drop_left]
  exact takeWhile_append_stop A rest '/'
    (fun ch hch => by simp [hA ch hch]) (by simp)

theorem replaceFirstHttpAuth_at_start (A rest repl : List Char) (hA : A ≠ [])
    (hAslash : ∀ ch ∈ A, ch ≠ '/') :
    replaceFirstHttpAuth ("http://".toList ++ (A ++ '/' :: rest)) repl =
      repl ++ '/' :: rest := by
  have hdrop : ("http://".toList ++ (A ++ '/' :: rest)).drop 7 = A ++ '/' :: rest := by
    rw [show (7 : Nat) = ("http://".toList).length from rfl, List.drop_left]
  have hrun : (A ++ '/' :: rest).takeWhile (fun ch => ch != '/') = A :=
    takeWhile_append_stop A rest '/' (fun ch hch => by simp [hAslash ch hch]) (by simp)
  have hmatch : httpMatchAt ("http://".toList ++ (A ++ '/' :: rest)) = some ('/' :: rest) := by
    rw [httpMatchAt, if_pos (isPrefixOf_append _ _), hdrop, hrun,
      if_neg (by simp [List.isEmpty_iff, hA]), List.drop_left]
  have hs : "http://".toList ++ (A ++ '/' :: rest) =
      'h' :: ("ttp://".toList ++ (A ++ '/' :: rest)) := rfl
  have hcons : ∀ (c : Char) (t r : List Char),
      replaceFirstHttpAuth (c :: t) r =
        match httpMatchAt (c :: t) with
        | some after => r ++ after
        | none => c :: replaceFirstHttpAuth t r := fun _ _ _ => rfl
  rw [hs] at hmatch ⊢
  rw [hcons, hmatch]

theorem offlineRewriteUrl_authority (host u : List Char) (h : rewriteSafe host u) :
    urlAuthority (offlineRewriteUrl host u) = host := by
  obtain ⟨hhost, hcase⟩ := h
  rcases hcase with ⟨rest, hu⟩ | ⟨hnc, A, rest, hA, hAslash, hu⟩
  · have hc : containsSubstr u ("http://".toList ++ host) = true := by
      rw [hu, ← List.append_assoc]
      have := containsSubstr_middle [] ("http://".toList ++ host) ('/' :: rest)
      simpa using this
    rw [offlineRewriteUrl, if_pos hc, hu]
    exact urlAuthority_http host rest hhost
  · have hnc' : ¬ containsSubstr u ("http://".toList ++ host) = true := by
      rw [hnc]; simp
    rw [offlineRewriteUrl, if_neg hnc', hu,
      replaceFirstHttpAuth_at_start A rest _ hA hAslash, List.append_assoc]
    exact urlAuthority_http host rest hhost

theorem offlineRewriteDoc_idem (host : List Char) (doc : MetadataDoc) :
    offlineRewriteDoc host (offlineRewriteDoc host doc) = offlineRewriteDoc host doc := by
  unfold offlineRewriteDoc
  rw [List.map_map]
  exact List.map_congr_left fun vd _ => by
    simp [Function.comp, offlineRewriteUrl_idem]

/-! ## Download coordinator  (src/backend/server.js, the tarball proxy route)

Lines 250-308 register a promise in the single-flight map
(`downloadLocks.set(filename, downloadPromise)`) and wire up its removal and
settlement:

* the `catch` around `await axios(...)` (lines 304-308) runs
  `downloadLocks.delete(filename); rejectDownload(e)` when the upstream
  request itself rejects;
* `fileWriter.on('finish')` (lines 269-271) runs
  `downloadLocks.delete(filename); resolveDownload()`;
* `fileWriter.on('error')` (lines 300-303) runs
  `downloadLocks.delete(filename); rejectDownload(err)`.

No handler is attached to `upstream.data` for the `'error'` event.  When a
piped readable stream errors, Node.js unpipes the destination without ending
or destroying it, so the `fileWriter` emits neither `'finish'` nor `'error'`
in that case and none of the three wired callbacks runs.
`downloadLockProtocol` records, for each way a download attempt can end, the
sequence of operations the handler performs on the single-flight map and on
its waiters. -/

inductive DownloadOutcome where
  | axiosRejected
  | writerFinished
  | writerErrored
  | upstreamStreamErrored
  deriving DecidableEq

inductive CoordinatorOp where
  | registerLock
  | removeLock
  | resolveWaiters
  | rejectWaiters
  deriving DecidableEq

def downloadLockProtocol : DownloadOutcome → List CoordinatorOp
  | .axiosRejected => [.registerLock, .removeLock, .rejectWaiters]
  | .writerFinished => [.registerLock, .removeLock, .resolveWaiters]
  | .writerErrored => [.registerLock, .removeLock, .rejectWaiters]
  | .upstreamStreamErrored => [.registerLock]

/-! ## Integrity verifier  (src/backend/services/scraper.js, security module)

`verifyPackageIntegrity(packageName, version, tarballPath)` (lines 122-183):
fetch the official integrity string, compute the local checksum with
`calculateChecksum(tarballPath)` (note: no algorithm argument, so the
`algorithm = 'sha512'` default always applies), compare, and react.  The
embedding makes the two fallible upstream interactions explicit parameters:
`official` is the settled result of `getOfficialChecksum` and `readResult`
the outcome of streaming the file into the hash (`calculateChecksum`
rejects with the stream error).  `digestOf algo` stands for the base64
digest of the on-disk file under hash algorithm `algo` (the `crypto`
library call); persistence writes (`SecurityLog.create`) and `fs.remove`
are modelled as succeeding.  Wall-clock fields (`verificationTime`,
`timestamp`) are omitted. -/

inductive JsResult (α : Type) where
  | ok (value : α)
  | err (message : String)
  deriving DecidableEq

structure SecurityEvent where
  packageName : String
  version : String
  eventType : String
  checksum : Option String := none
  expectedChecksum : Option String := none
  details : String
  deriving DecidableEq

structure VerifyState where
  files : List String
  log : List SecurityEvent
  deriving DecidableEq

structure VerifyResult where
  verified : Bool
  threat : Option Bool := none
  checksum : Option String := none
  expectedChecksum : Option String := none
  actualChecksum : Option String := none
  error : Option String := none
  deriving DecidableEq

/-- Embedding of `calculateChecksum(filePath, algorithm = 'sha512')` (lines 56-74):
streams the file into `crypto.createHash(algorithm)` and resolves
`` `${algorithm}-${hash.digest('base64')}` ``. -/
def calculateChecksum (digestOf : String → String) (readResult : JsResult Unit)
    (algorithm : String := "sha512") : JsResult String :=
  match readResult with
  | .ok _ => .ok (algorithm ++ "-" ++ digestOf algorithm)
  | .err m => .err m

/-- Embedding of `handleVerificationFailure` (lines 99-121): delete the on-disk file if it
exists, then append a `threat_detected` event carrying both digests. -/
def handleVerificationFailure (packageName version filePath expected actual : String)
    (st : VerifyState) : VerifyState :=
  { files := st.files.filter (fun p => p != filePath),
    log := st.log ++ [{ packageName := packageName, version := version,
                        eventType := "threat_detected", checksum := some actual,
                        expectedChecksum := some expected,
                        details := "Checksum mismatch - potential package tampering" }] }

def verifyPackageIntegrity (packageName version tarballPath : String)
    (official : JsResult String) (digestOf : String → String)
    (readResult : JsResult Unit) (st : VerifyState) : VerifyResult × VerifyState :=
  match official with
  | .err m =>
    ({ verified := false, error := some m },
     { st with log := st.log ++ [{ packageName := packageName, version := version,
                                   eventType := "failure",
                                   details := "Verification failed: " ++ m }] })
  | .ok officialChecksum =>
    match calculateChecksum digestOf readResult with
    | .err m =>
      ({ verified := false, error := some m },
       { st with log := st.log ++ [{ packageName := packageName, version := version,
                                     eventType := "failure",
                                     details := "Verification failed: " ++ m }] })
    | .ok actualChecksum =>
      if officialChecksum = actualChecksum then
        ({ verified := true, checksum := some actualChecksum },
         { st with log := st.log ++ [{ packageName := packageName, version := version,
                                       eventType := "success",
                                       checksum := some actualChecksum,
                                       expectedChecksum := some officialChecksum,
                                       details := "Package integrity verified successfully" }] })
      else
        ({ verified := false, threat := some true,
           expectedChecksum := some officialChecksum,
           actualChecksum := some actualChecksum },
         handleVerificationFailure packageName version tarballPath
           officialChecksum actualChecksum st)

/-- Claim-side extraction: the algorithm declared by the prefix of an
integrity string `"<algo>-<base64>"`. -/
def algoOf (s : String) : List Char :=
  s.data.takeWhile (fun ch => ch != '-')

theorem string_data_append (s t : String) : (s ++ t).data = s.data ++ t.data :=
  String.data_append s t

/-! ## Version extraction in the tarball route  (src/backend/server.js 229-230)

```js
const versionMatch = filename.match(REGEX);   // REGEX = -[\d.]+(?:-[\w.]+)?\.tgz$
const version = versionMatch ? versionMatch[1] : null;
```

The pattern matches a suffix `-<digits/dots>(-<word chars/dots>)?.tgz` at the
end of the string.  `matchVersionBody rest` decides (with the regex engine's
backtracking expressed as an existential over split points) whether `rest`
matches `[\d.]+(?:-[\w.]+)?`; `matchTgzSuffixAt s` whether the whole
remainder `s` matches the pattern through the `$` anchor, and
`tgzRegexSearch` scans for the leftmost starting position, returning the
matched text.  The pattern contains no capturing group, so a successful
`String.prototype.match` returns a one-element array `[fullMatch]`;
`tgzVersionMatch` returns that array and `extractVersion` reads index 1 from
it, exactly as the route does (`undefined`/`null` are both embedded as
`none`). -/

def isDigitOrDot (ch : Char) : Bool := ch.isDigit || ch == '.'

def isWordOrDot (ch : Char) : Bool :=
  ch.isAlpha || ch.isDigit || ch == '_' || ch == '.'

def matchVersionBody (rest : List Char) : Bool :=
  (!rest.isEmpty && rest.all isDigitOrDot) ||
  (List.range rest.length).any (fun k =>
    decide (0 < k) && (rest.take k).all isDigitOrDot &&
    match rest.drop k with
    | '-' :: b => !b.isEmpty && b.all isWordOrDot
    | _ => false)

def matchTgzSuffixAt : List Char → Bool
  | '-' :: body =>
    let n := body.length
    4 ≤ n && body.drop (n - 4) = ".tgz".toList && matchVersionBody (body.take (n - 4))
  | _ => false

def tgzRegexSearch : List Char → Option (List Char)
  | [] => none
  | c :: rest =>
    if matchTgzSuffixAt (c :: rest) then some (c :: rest) else tgzRegexSearch rest

/-- The value of `filename.match(REGEX)` for the version pattern: `none` embeds
`null`; a match yields the array `[fullMatch]` because the pattern has no
capturing group. -/
def tgzVersionMatch (filename : List Char) : Option (List (List Char)) :=
  match tgzRegexSearch filename with
  | some m => some [m]
  | none => none

/-- Embedding of `const version = versionMatch ? versionMatch[1] : null` — array index 1
(`undefined` out of range) and `null` both embed as `none`. -/
def extractVersion (filename : String) : Option (List Char) :=
  match tgzVersionMatch filename.data with
  | some arr => arr[1]?
  | none => none

structure PackageRecord where
  name : String
  version : Option (List Char) := none
  cachedPath : String
  integrity : String
  verified : Bool
  deriving DecidableEq

/-- The `fileWriter.on('finish')` package-record logic (server.js 269-287):
with a truthy extracted version the route verifies and, on success, creates
a verified record (no record on failure); otherwise it creates the
`integrity: 'unknown', verified: false` record.  The second component
reports whether `verifyPackageIntegrity` was invoked. -/
def tarballFinishHandler (name filename filePath : String)
    (verification : VerifyResult) : Option PackageRecord × Bool :=
  match extractVersion filename with
  | some v =>
    if verification.verified then
      (some { name := name, version := some v, cachedPath := filePath,
              integrity := (verification.checksum).getD "", verified := true }, true)
    else (none, true)
  | none =>
    (some { name := name, cachedPath := filePath,
            integrity := "unknown", verified := false }, false)

/-! ## Chunker  (src/backend/services/rag.js, chunkDocument)

```js
function chunkDocument(text, chunkSize = 800, overlap = 100) {
  const chunks = [];
  for (let i = 0; i < text.length; i += chunkSize - overlap) {
    chunks.push(text.substring(i, i + chunkSize));
  }
  return chunks;
}
```

The loop advances by `step = chunkSize - overlap` code units per iteration
and stops once the cursor passes the end of the text, so (for `step ≥ 1`) it
performs at most `text.length` iterations; `chunkLoop` runs the same loop on
the not-yet-visited suffix of the text, with that iteration count as
structural fuel.  `text.substring(i, i + chunkSize)` is the clamped slice
`(text.drop i).take chunkSize`. -/

def chunkLoop (chunkSize step : Nat) : Nat → List Char → List (List Char)
  | _, [] => []
  | 0, _ => []
  | fuel + 1, c :: rest =>
    (c :: rest).take chunkSize :: chunkLoop chunkSize step fuel ((c :: rest).drop step)

def chunkDocument (text : List Char) (chunkSize : Nat := 800) (overlap : Nat := 100) :
    List (List Char) :=
  chunkLoop chunkSize (chunkSize - overlap) text.length text

theorem chunkLoop_length (chunkSize step : Nat) (hstep : 0 < step) :
    ∀ (fuel : Nat) (text : List Char), text.length ≤ fuel →
      (chunkLoop chunkSize step fuel text).length = (text.length + step - 1) / step := by
  have hnil : (0 + step - 1) / step = 0 := Nat.div_eq_of_lt (by omega)
  intro fuel
  induction fuel with
  | zero =>
    intro text hle
    cases text with
    | nil => simpa [chunkLoop] using hnil.symm
    | cons c rest => simp at hle
  | succ n ih =>
    intro text hle
    cases text with
    | nil => simpa [chunkLoop] using hnil.symm
    | cons c rest =>
      simp only [List.length_cons] at hle
      have hdrop : ((c :: rest).drop step).length = rest.length + 1 - step := by
        simp [List.length_drop]
      have hrec := ih ((c :: rest).drop step) (by rw [hdrop]; omega)
      simp only [chunkLoop, List.length_cons]
      rw [hrec, hdrop]
      rcases Nat.lt_or_ge rest.length step with hlt | hge
      · have h1 : rest.length + 1 - step + step - 1 = step - 1 := by omega
        have h2 : (step - 1) / step = 0 := Nat.div_eq_of_lt (by omega)
        have h3 : (rest.length + 1 + step - 1) / step = 1 :=
          Nat.div_eq_of_lt_le (by omega) (by omega)
        rw [h1, h2, h3]
      · have h1 : rest.length + 1 - step + step - 1 = rest.length - step + step := by omega
        have h2 : rest.length + 1 + step - 1 = rest.length + step := by omega
        have h3 : rest.length - step + step = rest.length := by omega
        rw [h1, Nat.add_div_right _ hstep, h2, Nat.add_div_right _ hstep]
        conv_rhs => rw [← h3, Nat.add_div_right _ hstep]

theorem chunkDocument_length (text : List Char) (chunkSize overlap : Nat)
    (h : overlap < chunkSize) :
    (chunkDocument text chunkSize overlap).length =
      (text.length + (chunkSize - overlap) - 1) / (chunkSize - overlap) :=
  chunkLoop_length chunkSize (chunkSize - overlap) (by omega) text.length text le_rfl

/-! ## Response cache and embedding cache  (src/backend/services/rag.js)

The response cache stores `{ questionHash, answer, expiresAt }` with a
MongoDB TTL index `expireAfterSeconds: 0` on `expiresAt`; the embedding
cache stores `{ textHash, embedding, createdAt }` with `expires: 3600` on
`createdAt`.  `getCachedResponse` (lines 97-101) and the read half of
`getOrCacheEmbedding` (lines 62-72) issue `findOne` queries keyed only by
the hash — the query does not constrain the expiry field, and the current
time never enters the lookup; expiry is enforced solely by the store's
background TTL reclamation, modelled by `ttlReclaimCache` /
`ttlReclaimEmbedding` (MongoDB deletes a document at some unspecified time
after its TTL deadline passes).  Timestamps are epoch milliseconds; the MD5
content hashes are irrelevant to the expiry behaviour, so the lookups are
keyed by the digest value directly. -/

structure CacheEntry where
  questionHash : String
  answer : String
  expiresAt : Nat
  deriving DecidableEq

structure EmbeddingCacheEntry where
  textHash : String
  embedding : List ℚ
  createdAt : Nat
  deriving DecidableEq

def cacheFindOne (store : List CacheEntry) (h : String) : Option CacheEntry :=
  store.find? (fun e => e.questionHash == h)

/-- Embedding of `getCachedResponse` at wall-clock time `now` — the parameter is unused
because the source lookup never consults the clock. -/
def getCachedResponse (store : List CacheEntry) (questionHash : String)
    (_now : Nat) : Option String :=
  (cacheFindOne store questionHash).map (fun e => e.answer)

def embeddingFindOne (store : List EmbeddingCacheEntry) (h : String) :
    Option EmbeddingCacheEntry :=
  store.find? (fun e => e.textHash == h)

/-- Embedding of `getOrCacheEmbedding`: return the cached vector when a document with the
hash physically exists, otherwise generate (`gen` is the settled
`generateEmbedding` result, `none` when the backend returned null) and
upsert with `createdAt` defaulted to the insertion time. -/
def getOrCacheEmbedding (store : List EmbeddingCacheEntry) (textHash : String)
    (gen : Option (List ℚ)) (now : Nat) :
    Option (List ℚ) × List EmbeddingCacheEntry :=
  match embeddingFindOne store textHash with
  | some cached => (some cached.embedding, store)
  | none =>
    match gen with
    | some emb => (some emb, store ++ [{ textHash := textHash, embedding := emb,
                                         createdAt := now }])
    | none => (none, store)

/-- MongoDB TTL reclamation of the response cache: documents whose
`expiresAt` has passed are deleted (at an unspecified time, here: a sweep at
time `now`). -/
def ttlReclaimCache (now : Nat) (store : List CacheEntry) : List CacheEntry :=
  store.filter (fun e => decide (now < e.expiresAt))

/-- MongoDB TTL reclamation of the embedding cache (`expires: 3600` seconds
after `createdAt`, i.e. 3600000 ms). -/
def ttlReclaimEmbedding (now : Nat) (store : List EmbeddingCacheEntry) :
    List EmbeddingCacheEntry :=
  store.filter (fun e => decide (now < e.createdAt + 3600000))

/-! ## Hybrid search  (src/backend/services/rag.js, hybridSearch, lines 140-175)

The inputs are the two result lists as delivered by the database layer:
`vectorResults` (chunks scored by `findRelevantChunks`; a `lean()` document
from the text-search fallback has no `score` field, embedded as `none`) and
`keywordResults`.  The merge uses a JavaScript `Map` keyed by
`_id.toString()`: `Map.prototype.set` preserves the original insertion
position when overwriting, embedded by `mapSet` on an insertion-ordered
list.  Scores are embedded as `ℚ`.  The final
`.sort((a, b) => b.combinedScore - a.combinedScore)` is, per the ECMAScript
contract, a stable sort by descending `combinedScore`; its result is the
unique permutation that orders strictly by the lexicographic key
(combinedScore descending, original position ascending), computed here by
insertion sort over position-decorated entries. -/

structure ChunkHit where
  id : String
  chunkIndex : Nat
  score : Option ℚ
  deriving DecidableEq

structure RankedChunk where
  id : String
  chunkIndex : Nat
  vectorScore : ℚ
  keywordScore : ℚ
  combinedScore : ℚ
  deriving DecidableEq

/-- Embedding of JavaScript `Map.prototype.set` on an insertion-ordered association list:
overwrite in place if the key exists, else append. -/
def mapSet (m : List RankedChunk) (x : RankedChunk) : List RankedChunk :=
  if m.any (fun y => y.id == x.id) then
    m.map (fun y => if y.id == x.id then x else y)
  else m ++ [x]

/-- The `keywordResults.forEach` pass: an existing entry gets
`keywordScore = 1` (position preserved), a new one is appended with
`vectorScore: 0, keywordScore: 1`. -/
def markKeyword (m : List RankedChunk) (r : ChunkHit) : List RankedChunk :=
  if m.any (fun y => y.id == r.id) then
    m.map (fun y => if y.id == r.id then { y with keywordScore := 1 } else y)
  else m ++ [{ id := r.id, chunkIndex := r.chunkIndex, vectorScore := 0,
               keywordScore := 1, combinedScore := 0 }]

def mergeHits (vectorResults keywordResults : List ChunkHit) : List RankedChunk :=
  let m := vectorResults.foldl
    (fun m r => mapSet m { id := r.id, chunkIndex := r.chunkIndex,
                           vectorScore := r.score.getD 0, keywordScore := 0,
                           combinedScore := 0 }) []
  keywordResults.foldl markKeyword m

def withCombined (vectorResults keywordResults : List ChunkHit) : List RankedChunk :=
  (mergeHits vectorResults keywordResults).map
    (fun item => { item with
      combinedScore := item.vectorScore * 0.7 + item.keywordScore * 0.3 })

/-- The sort key of the stable descending sort: entry `x` (at original
position `x.1`) precedes-or-equals `y` when its combined score is larger, or
equal with an earlier original position. -/
def rankLE (x y : Nat × RankedChunk) : Bool :=
  decide (y.2.combinedScore < x.2.combinedScore) ||
    (decide (x.2.combinedScore = y.2.combinedScore) && decide (x.1 ≤ y.1))

def insertRanked (x : Nat × RankedChunk) :
    List (Nat × RankedChunk) → List (Nat × RankedChunk)
  | [] => [x]
  | y :: ys => if rankLE x y then x :: y :: ys else y :: insertRanked x ys

def sortRanked : List (Nat × RankedChunk) → List (Nat × RankedChunk)
  | [] => []
  | x :: xs => insertRanked x (sortRanked xs)

/-- The ranking core of `hybridSearch`: merge, score, stable-sort
descending, take `topK`. -/
def hybridSearchCore (vectorResults keywordResults : List ChunkHit)
    (topK : Nat) : List RankedChunk :=
  ((sortRanked (withCombined vectorResults keywordResults).enum).map
    Prod.snd).take topK

theorem rankLE_total (x y : Nat × RankedChunk) :
    rankLE x y = true ∨ rankLE y x = true := by
  simp only [rankLE, Bool.or_eq_true, Bool.and_eq_true, decide_eq_true_eq]
  rcases lt_trichotomy x.2.combinedScore y.2.combinedScore with h | h | h
  · exact Or.inr (Or.inl h)
  · rcases Nat.le_total x.1 y.1 with h1 | h1
    · exact Or.inl (Or.inr ⟨h, h1⟩)
    · exact Or.inr (Or.inr ⟨h.symm, h1⟩)
  · exact Or.inl (Or.inl h)

theorem rankLE_trans {x y z : Nat × RankedChunk} (h1 : rankLE x y = true)
    (h2 : rankLE y z = true) : rankLE x z = true := by
  simp only [rankLE, Bool.or_eq_true, Bool.and_eq_true, decide_eq_true_eq] at *
  rcases h1 with h1 | ⟨h1e, h1n⟩ <;> rcases h2 with h2 | ⟨h2e, h2n⟩
  · exact Or.inl (h2.trans h1)
  · exact Or.inl (h2e ▸ h1)
  · exact Or.inl (h1e.symm ▸ h2)
  · exact Or.inr ⟨h1e.trans h2e, h1n.trans h2n⟩

theorem insertRanked_perm (x : Nat × RankedChunk) (l : List (Nat × RankedChunk)) :
    (insertRanked x l).Perm (x :: l) := by
  induction l with
  | nil => simp [insertRanked]
  | cons y ys ih =>
    by_cases h : rankLE x y = true
    · simp [insertRanked, h]
    · simp only [insertRanked, if_neg h]
      exact (ih.cons y).trans (List.Perm.swap x y ys)

theorem sortRanked_perm (l : List (Nat × RankedChunk)) :
    (sortRanked l).Perm l := by
  induction l with
  | nil => simp [sortRanked]
  | cons x xs ih =>
    exact (insertRanked_perm x (sortRanked xs)).trans (ih.cons x)

theorem insertRanked_pairwise (x : Nat × RankedChunk)
    (l : List (Nat × RankedChunk))
    (hl : l.Pairwise (fun a b => rankLE a b = true)) :
    (insertRanked x l).Pairwise (fun a b => rankLE a b = true) := by
  induction l with
  | nil => simp [insertRanked]
  | cons y ys ih =>
    rcases List.pairwise_cons.mp hl with ⟨hy, hys⟩
    by_cases h : rankLE x y = true
    · rw [insertRanked, if_pos h]
      refine List.pairwise_cons.mpr ⟨?_, hl⟩
      intro b hb
      rcases hb with _ | hb
      · exact h
      · exact rankLE_trans h (hy b (by assumption))
    · rw [insertRanked, if_neg h]
      have hyx : rankLE y x = true := (rankLE_total x y).resolve_left h
      refine List.pairwise_cons.mpr ⟨?_, ih hys⟩
      intro b hb
      have hb' := (insertRanked_perm x ys).mem_iff.mp hb
      rcases List.mem_cons.mp hb' with hb2 | hb2
      · exact hb2 ▸ hyx
      · exact hy b hb2

theorem sortRanked_pairwise (l : List (Nat × RankedChunk)) :
    (sortRanked l).Pairwise (fun a b => rankLE a b = true) := by
  induction l with
  | nil => simp [sortRanked]
  | cons x xs ih => exact insertRanked_pairwise x (sortRanked xs) ih

/-! ## Cosine similarity  (src/backend/services/ai.js, lines 48-58)

```js
function cosineSimilarity(a, b) {
  if (!a || !b || a.length !== b.length) return 0;
  let dotProduct = 0, normA = 0, normB = 0;
  for (let i = 0; i < a.length; i++) { ... }
  const similarity = dotProduct / (Math.sqrt(normA) * Math.sqrt(normB));
  return isNaN(similarity) ? 0 : similarity;
}
```

Vectors are embedded as `List ℝ`.  The `isNaN` guard fires exactly when the
division is `0/0` (a zero denominator forces a zero numerator by
Cauchy-Schwarz), and Lean's real division already returns `0` there, so the
embedding is the bare division.  The `!a || !b` null guard has no
counterpart for total `List` values. -/

def dotProduct (a b : List ℝ) : ℝ := (List.zipWith (· * ·) a b).sum

def sumSq (a : List ℝ) : ℝ := (a.map (fun x => x * x)).sum

noncomputable def cosineSimilarity (a b : List ℝ) : ℝ :=
  if a.length ≠ b.length then 0
  else dotProduct a b / (Real.sqrt (sumSq a) * Real.sqrt (sumSq b))

theorem sumSq_nonneg (a : List ℝ) : 0 ≤ sumSq a := by
  induction a with
  | nil => simp [sumSq]
  | cons x xs ih =>
    simp only [sumSq, List.map_cons, List.sum_cons]
    have := mul_self_nonneg x
    simp only [sumSq] at ih
    linarith

theorem dotProduct_sq_le (a b : List ℝ) :
    (dotProduct a b) ^ 2 ≤ sumSq a * sumSq b := by
  induction a generalizing b with
  | nil => simp [dotProduct, sumSq]
  | cons x xs ih =>
    cases b with
    | nil => simp [dotProduct, sumSq]
    | cons y ys =>
      have hA := sumSq_nonneg xs
      have hB := sumSq_nonneg ys
      have hd := ih ys
      have e1 : dotProduct (x :: xs) (y :: ys) = x * y + dotProduct xs ys := by
        simp [dotProduct]
      have e2 : sumSq (x :: xs) = x * x + sumSq xs := by simp [sumSq]
      have e3 : sumSq (y :: ys) = y * y + sumSq ys := by simp [sumSq]
      rw [e1, e2, e3]
      rcases hA.eq_or_lt with hA0 | hApos
      · have h1 : (dotProduct xs ys) ^ 2 ≤ 0 := by
          have := hd; rw [← hA0] at this; simpa using this
        have hd0 : dotProduct xs ys = 0 :=
          pow_eq_zero_iff (two_ne_zero) |>.mp (le_antisymm h1 (sq_nonneg _))
        rw [← hA0, hd0]
        nlinarith [hB, sq_nonneg x, sq_nonneg y, mul_nonneg (mul_self_nonneg x) hB]
      · have key : (sumSq xs) *
            ((x * x + sumSq xs) * (y * y + sumSq ys) - (x * y + dotProduct xs ys) ^ 2)
            = (sumSq xs * y - x * dotProduct xs ys) ^ 2
              + (x * x + sumSq xs) * (sumSq xs * sumSq ys - (dotProduct xs ys) ^ 2) := by
          ring
        nlinarith [key, hApos, sq_nonneg (sumSq xs * y - x * dotProduct xs ys), hd,
          sq_nonneg x, mul_nonneg hA hB]

/-! ## Claim theorems -/

/-- C1: the claim demands that every registration of a filename in the
single-flight map `downloadLocks` is paired with a removal on every exit
path, including upstream stream errors mid-download, and that every waiter
is eventually resolved or rejected.  The handler does pair registration with
removal (and settles the waiters) when the upstream request rejects, when
the disk writer finishes, and when the disk writer errors — but on an
upstream stream error mid-download none of the wired callbacks runs: the
registration is never removed and the waiters are never settled.  This
contradicts the claim (and defeats the purpose of the lock), so the claim is
recorded as a code bug witnessed by the `upstreamStreamErrored` outcome. -/
theorem C1_singleflight_lock_leak :
    ((downloadLockProtocol .axiosRejected).count .removeLock = 1 ∧
     (downloadLockProtocol .writerFinished).count .removeLock = 1 ∧
     (downloadLockProtocol .writerErrored).count .removeLock = 1) ∧
    ((downloadLockProtocol .axiosRejected).count .rejectWaiters = 1 ∧
     (downloadLockProtocol .writerFinished).count .resolveWaiters = 1 ∧
     (downloadLockProtocol .writerErrored).count .rejectWaiters = 1) ∧
    (downloadLockProtocol .upstreamStreamErrored).count .registerLock = 1 ∧
    (downloadLockProtocol .upstreamStreamErrored).count .removeLock = 0 ∧
    (downloadLockProtocol .upstreamStreamErrored).count .resolveWaiters = 0 ∧
    (downloadLockProtocol .upstreamStreamErrored).count .rejectWaiters = 0 := by
  decide

/-- C2: every invocation of `verifyPackageIntegrity` appends exactly one
Security event; on digest inequality specifically, the on-disk file is
deleted, a `threat_detected` event carrying both the observed and the
expected digest is appended, and the result is
`{verified: false, threat: true}` (with the two digests attached). -/
theorem C2_verify_writes_one_event_and_threat_response :
    ∀ (pkg ver path : String) (official : JsResult String)
      (digestOf : String → String) (readResult : JsResult Unit) (st : VerifyState),
      (verifyPackageIntegrity pkg ver path official digestOf readResult st).2.log.length
          = st.log.length + 1 ∧
      (∀ o a, official = .ok o → calculateChecksum digestOf readResult = .ok a →
        o ≠ a →
        (verifyPackageIntegrity pkg ver path official digestOf readResult st).1
            = { verified := false, threat := some true, expectedChecksum := some o,
                actualChecksum := some a } ∧
        path ∉ (verifyPackageIntegrity pkg ver path official digestOf readResult st).2.files ∧
        (verifyPackageIntegrity pkg ver path official digestOf readResult st).2.log
            = st.log ++ [{ packageName := pkg, version := ver,
                           eventType := "threat_detected", checksum := some a,
                           expectedChecksum := some o,
                           details := "Checksum mismatch - potential package tampering" }]) := by
  intro pkg ver path official digestOf readResult st
  constructor
  · cases official with
    | err m => simp [verifyPackageIntegrity]
    | ok o =>
      cases hc : calculateChecksum digestOf readResult with
      | err m => simp [verifyPackageIntegrity, hc]
      | ok a =>
        by_cases he : o = a
        · simp [verifyPackageIntegrity, hc, he]
        · simp [verifyPackageIntegrity, hc, he, handleVerificationFailure]
  · intro o a ho hc hne
    subst ho
    refine ⟨?_, ?_, ?_⟩
    · simp [verifyPackageIntegrity, hc, hne]
    · simp [verifyPackageIntegrity, hc, hne, handleVerificationFailure, List.mem_filter]
    · simp [verifyPackageIntegrity, hc, hne, handleVerificationFailure]

/-- C2 witness: a concrete mismatching verification. -/
theorem C2_verify_writes_one_event_and_threat_response_witness :
    (verifyPackageIntegrity "left-pad" "1.3.0" "/storage/left-pad-1.3.0.tgz"
        (.ok "sha512-E") (fun _ => "A") (.ok ()) ⟨["/storage/left-pad-1.3.0.tgz"], []⟩).1
      = { verified := false, threat := some true, expectedChecksum := some "sha512-E",
          actualChecksum := some "sha512-A" } ∧
    "/storage/left-pad-1.3.0.tgz" ∉
      (verifyPackageIntegrity "left-pad" "1.3.0" "/storage/left-pad-1.3.0.tgz"
        (.ok "sha512-E") (fun _ => "A") (.ok ()) ⟨["/storage/left-pad-1.3.0.tgz"], []⟩).2.files := by
  have h := C2_verify_writes_one_event_and_threat_response "left-pad" "1.3.0"
    "/storage/left-pad-1.3.0.tgz" (.ok "sha512-E") (fun _ => "A") (.ok ())
    ⟨["/storage/left-pad-1.3.0.tgz"], []⟩
  have h2 := h.2 "sha512-E" "sha512-A" rfl rfl (by decide)
  exact ⟨h2.1, h2.2.1⟩

/-- C3: the version regex in the tarball route has no capturing group, so
`versionMatch[1]` is `undefined` for every filename — even for filenames the
pattern does match, such as `express-4.18.2.tgz` — and consequently the
finish handler never invokes `verifyPackageIntegrity` from this route and
every record it creates has `verified = false` and integrity `"unknown"`. -/
theorem C3_version_extraction_always_undefined :
    ∀ (name filename filePath : String) (verification : VerifyResult),
      extractVersion filename = none ∧
      tgzRegexSearch "express-4.18.2.tgz".toList ≠ none ∧
      (tarballFinishHandler name filename filePath verification).2 = false ∧
      ∀ r, (tarballFinishHandler name filename filePath verification).1 = some r →
        r.verified = false ∧ r.integrity = "unknown" := by
  have hv : ∀ fn : String, extractVersion fn = none := by
    intro fn
    unfold extractVersion tgzVersionMatch
    cases tgzRegexSearch fn.data <;> simp
  intro name filename filePath verification
  refine ⟨hv filename, by decide, ?_, ?_⟩
  · simp [tarballFinishHandler, hv filename]
  · intro r hr
    simp only [tarballFinishHandler, hv filename, Option.some_inj] at hr
    rw [← hr]
    exact ⟨rfl, rfl⟩

/-- C3 witness: the handler at a concrete matching filename. -/
theorem C3_version_extraction_always_undefined_witness :
    (tarballFinishHandler "express" "express-4.18.2.tgz"
        "/storage/express-4.18.2.tgz" { verified := false }).2 = false ∧
    ({ name := "express", cachedPath := "/storage/express-4.18.2.tgz",
       integrity := "unknown", verified := false } : PackageRecord).verified = false := by
  have h := C3_version_extraction_always_undefined "express" "express-4.18.2.tgz"
    "/storage/express-4.18.2.tgz" { verified := false }
  exact ⟨h.2.2.1, (h.2.2.2 _ (by decide)).1⟩

/-- C4 counterexample: upstream down, a persisted document whose tarball URL
is `http://ab/p.tgz`, request host `a`.  The offline branch's
`includes('http://a')` guard is satisfied by the *substring* `http://a` of
the different authority `ab`, so the URL is left unchanged and the response
contains a tarball URL whose scheme+authority is `http://ab`, not
`http://a`, contradicting the claim. -/
theorem C4_counterexample_substring_host :
    (metadataHandler none
        (some [⟨"1.0.0".toList, "http://ab/p.tgz".toList⟩]) "a".toList).1 = 200 ∧
    ¬ ∀ vd ∈ (metadataHandler none
        (some [⟨"1.0.0".toList, "http://ab/p.tgz".toList⟩]) "a".toList).2.getD [],
        urlAuthority vd.tarball = "a".toList := by
  decide

/-- C4 amended: with upstream unreachable, the handler answers 502 when no
persisted document exists, and 200 with the offline-rewritten persisted
document otherwise; each rewritten tarball URL's scheme+authority equals the
request host provided the URL is `rewriteSafe` for that host — i.e. the URL
has shape `http://<authority>/<path>` and either already begins with
`http://<host>/` or does not contain the string `http://<host>` anywhere
(the `includes` guard skips rewriting any URL containing that substring,
which can preserve a foreign authority that merely extends the host, as the
counterexample shows). -/
theorem C4_amended_offline_fallback :
    ∀ (persisted : MetadataDoc) (host u : List Char),
      (metadataHandler none none host).1 = 502 ∧
      (metadataHandler none (some persisted) host).1 = 200 ∧
      (metadataHandler none (some persisted) host).2 =
        some (persisted.map fun vd =>
          { vd with tarball := offlineRewriteUrl host vd.tarball }) ∧
      (rewriteSafe host u → urlAuthority (offlineRewriteUrl host u) = host) :=
  fun _ host u =>
    ⟨rfl, rfl, rfl, offlineRewriteUrl_authority host u⟩

/-- C4 witness: a URL cached under an old LAN address is re-pointed at the
current request host `h2`. -/
theorem C4_amended_offline_fallback_witness :
    urlAuthority (offlineRewriteUrl "h2".toList
        "http://192.168.1.7:4873/lodash/-/lodash-4.17.21.tgz".toList) = "h2".toList := by
  have h := C4_amended_offline_fallback [] "h2".toList
    "http://192.168.1.7:4873/lodash/-/lodash-4.17.21.tgz".toList
  exact h.2.2.2 ⟨by decide,
    Or.inr ⟨by decide, "192.168.1.7:4873".toList,
      "lodash/-/lodash-4.17.21.tgz".toList, by decide, by decide, by decide⟩⟩

/-- C7 counterexample: the online rewrite replaces only the *first*
occurrence of the upstream base URL, so a document whose tarball URL
contains the base twice is rewritten differently by a second application —
the rewrite of the claim is not idempotent for every document. -/
theorem C7_counterexample_online_not_idempotent :
    onlineRewriteDoc "h2".toList (onlineRewriteDoc "h2".toList
        [⟨"1.0.0".toList,
          "https://registry.npmjs.orghttps://registry.npmjs.org/x.tgz".toList⟩])
      ≠ onlineRewriteDoc "h2".toList
        [⟨"1.0.0".toList,
          "https://registry.npmjs.orghttps://registry.npmjs.org/x.tgz".toList⟩] := by
  decide

/-- C7 amended: the offline rewrite (server.js 212-219) is idempotent for
every document and host — a URL it changes afterwards contains
`http://<host>`, which the `includes` guard then leaves alone.  The online
rewrite (server.js 196-201) replaces only the first occurrence of the
upstream base URL and is idempotent exactly when no once-rewritten tarball
URL still contains the upstream base (true of every real upstream document,
whose URLs contain the base once, as a prefix); the counterexample shows a
document with a double occurrence violating idempotence. -/
theorem C7_amended_rewrite_idempotent :
    ∀ (doc : MetadataDoc) (host : List Char),
      offlineRewriteDoc host (offlineRewriteDoc host doc) = offlineRewriteDoc host doc ∧
      ((∀ vd ∈ doc,
          containsSubstr (onlineRewriteUrl host vd.tarball) UPSTREAM_URL = false) →
        onlineRewriteDoc host (onlineRewriteDoc host doc) = onlineRewriteDoc host doc) := by
  intro doc host
  refine ⟨offlineRewriteDoc_idem host doc, fun h => ?_⟩
  unfold onlineRewriteDoc
  rw [List.map_map]
  refine List.map_congr_left fun vd hvd => ?_
  have h2 : onlineRewriteUrl host (onlineRewriteUrl host vd.tarball)
      = onlineRewriteUrl host vd.tarball :=
    replaceFirst_of_not_contains _ _ _ (h vd hvd)
  obtain ⟨v, t⟩ := vd
  simp only [Function.comp] at *
  simp [h2]

/-- C7 witness: both rewrites, twice, on a real-shaped document. -/
theorem C7_amended_rewrite_idempotent_witness :
    onlineRewriteDoc "h2".toList (onlineRewriteDoc "h2".toList
        [⟨"4.17.21".toList,
          "https://registry.npmjs.org/lodash/-/lodash-4.17.21.tgz".toList⟩])
      = onlineRewriteDoc "h2".toList
        [⟨"4.17.21".toList,
          "https://registry.npmjs.org/lodash/-/lodash-4.17.21.tgz".toList⟩] ∧
    offlineRewriteDoc "h2".toList (offlineRewriteDoc "h2".toList
        [⟨"4.17.21".toList,
          "https://registry.npmjs.org/lodash/-/lodash-4.17.21.tgz".toList⟩])
      = offlineRewriteDoc "h2".toList
        [⟨"4.17.21".toList,
          "https://registry.npmjs.org/lodash/-/lodash-4.17.21.tgz".toList⟩] := by
  have h := C7_amended_rewrite_idempotent
    [⟨"4.17.21".toList,
      "https://registry.npmjs.org/lodash/-/lodash-4.17.21.tgz".toList⟩] "h2".toList
  exact ⟨h.2 (by decide), h.1⟩

theorem algoOf_sha512_append (d : String) :
    algoOf ("sha512" ++ "-" ++ d) = "sha512".data := by
  unfold algoOf
  rw [string_data_append, string_data_append]
  rfl

/-- C9 counterexample: with an upstream integrity string declaring `sha1`,
the verifier still computes the file digest with the `sha512` default —
`calculateChecksum` is invoked without an algorithm argument — so the
computed checksum's algorithm prefix differs from the declared one (and the
comparison then fails unconditionally, flagging a threat). -/
theorem C9_counterexample_declared_algorithm_ignored :
    (verifyPackageIntegrity "pkg" "1.0.0" "/f" (.ok "sha1-d0") (fun _ => "d0")
        (.ok ()) ⟨["/f"], []⟩).1.actualChecksum = some "sha512-d0" ∧
    algoOf "sha512-d0" ≠ algoOf "sha1-d0" := by
  decide

/-- C9 amended: every checksum `verifyPackageIntegrity` computes (surfaced
as `checksum` on success or `actualChecksum` on mismatch) is canonicalized
as `"sha512-<base64>"` with the hash algorithm fixed to `sha512`, regardless
of the algorithm declared by the upstream integrity string's prefix. -/
theorem C9_amended_checksum_always_sha512 :
    ∀ (pkg ver path : String) (official : JsResult String)
      (digestOf : String → String) (readResult : JsResult Unit)
      (st : VerifyState) (c : String),
      ((verifyPackageIntegrity pkg ver path official digestOf readResult st).1.checksum
          = some c ∨
       (verifyPackageIntegrity pkg ver path official digestOf readResult st).1.actualChecksum
          = some c) →
      c = "sha512" ++ "-" ++ digestOf "sha512" ∧ algoOf c = "sha512".data := by
  intro pkg ver path official digestOf readResult st c hc
  have hfold : ("sha512" : String) ++ "-" ++ digestOf "sha512"
      = "sha512-" ++ digestOf "sha512" := rfl
  have hkey : c = "sha512-" ++ digestOf "sha512" := by
    cases official with
    | err m => simp [verifyPackageIntegrity] at hc
    | ok o =>
      cases readResult with
      | err m => simp [verifyPackageIntegrity, calculateChecksum] at hc
      | ok u =>
        by_cases he : o = "sha512-" ++ digestOf "sha512"
        · have hv : (verifyPackageIntegrity pkg ver path (.ok o) digestOf (.ok u) st).1
              = { verified := true, checksum := some ("sha512-" ++ digestOf "sha512") } := by
            simp [verifyPackageIntegrity, calculateChecksum, he]
          rw [hv] at hc
          rcases hc with hc | hc
          · exact (Option.some_inj.mp hc).symm
          · simp at hc
        · have hv : (verifyPackageIntegrity pkg ver path (.ok o) digestOf (.ok u) st).1
              = { verified := false, threat := some true, expectedChecksum := some o,
                  actualChecksum := some ("sha512-" ++ digestOf "sha512") } := by
            simp [verifyPackageIntegrity, calculateChecksum, he]
          rw [hv] at hc
          rcases hc with hc | hc
          · simp at hc
          · exact (Option.some_inj.mp hc).symm
  rw [hfold]
  exact ⟨hkey, by rw [hkey, ← hfold]; exact algoOf_sha512_append (digestOf "sha512")⟩

/-- C9 witness: a successful verification carrying the canonical sha512
checksum. -/
theorem C9_amended_checksum_always_sha512_witness :
    ("sha512-D" : String) = "sha512" ++ "-" ++ "D" ∧
    algoOf "sha512-D" = "sha512".data := by
  have h := C9_amended_checksum_always_sha512 "pkg" "1.0.0" "/f" (.ok "sha512-D")
    (fun _ => "D") (.ok ()) ⟨[], []⟩ "sha512-D" (Or.inl (by decide))
  exact ⟨h.1, h.2⟩

/-- C5 counterexample: at time 2000 the lookup returns the answer of an
entry that expired at time 1000 but still physically persists (the TTL
sweep has not yet run) — the `findOne` query is keyed only by the hash and
never consults the clock, so an expired-but-unreclaimed entry is returned,
contradicting the claim. -/
theorem C5_counterexample_expired_entry_returned :
    getCachedResponse [⟨"q1", "cached answer", 1000⟩] "q1" 2000 = some "cached answer" ∧
    cacheFindOne [⟨"q1", "cached answer", 1000⟩] "q1" = some ⟨"q1", "cached answer", 1000⟩ ∧
    ¬ (2000 : Nat) < 1000 := by
  decide

/-- C5 amended: both cache lookups return whatever entry physically
persists under the key, independent of the current time; an expired entry
is guaranteed not to be returned only after the store's TTL reclamation has
deleted it (after reclamation at time `now`, any entry found satisfies
`now < expiry`). -/
theorem C5_amended_lookup_ignores_expiry :
    ∀ (store : List CacheEntry) (estore : List EmbeddingCacheEntry) (h : String)
      (gen : Option (List ℚ)) (now now' : Nat),
      getCachedResponse store h now = getCachedResponse store h now' ∧
      (∀ e, cacheFindOne (ttlReclaimCache now store) h = some e → now < e.expiresAt) ∧
      (getOrCacheEmbedding estore h gen now).1 = (getOrCacheEmbedding estore h gen now').1 ∧
      (∀ e, embeddingFindOne (ttlReclaimEmbedding now estore) h = some e →
        now < e.createdAt + 3600000) := by
  intro store estore h gen now now'
  refine ⟨rfl, ?_, ?_, ?_⟩
  · intro e he
    have hm := List.mem_of_find?_eq_some he
    have := (List.mem_filter.mp hm).2
    exact of_decide_eq_true this
  · unfold getOrCacheEmbedding
    cases embeddingFindOne estore h with
    | some cached => rfl
    | none => cases gen with
      | some emb => rfl
      | none => rfl
  · intro e he
    have hm := List.mem_of_find?_eq_some he
    have := (List.mem_filter.mp hm).2
    exact of_decide_eq_true this

/-- C5 witness: concrete clock-independence and post-reclamation freshness. -/
theorem C5_amended_lookup_ignores_expiry_witness :
    getCachedResponse [⟨"q", "a", 3000⟩] "q" 2000
      = getCachedResponse [⟨"q", "a", 3000⟩] "q" 2999 ∧
    (2000 : Nat) < 3000 := by
  have h := C5_amended_lookup_ignores_expiry [⟨"q", "a", 3000⟩] [] "q" none 2000 2999
  exact ⟨h.1, h.2.1 ⟨"q", "a", 3000⟩ (by decide)⟩

/-- C6 counterexample: a 750-character text with the default window 800 and
overlap 100.  The loop advances by 700 and runs while `i < 750`, producing
two chunks (`[0,750)` and `[700,750)`), but the claimed formula
`⌈(750−100)/700⌉` gives 1. -/
theorem C6_counterexample_chunk_count :
    (chunkDocument (List.replicate 750 'a') 800 100).length ≠
      (750 - 100 + (800 - 100) - 1) / (800 - 100) := by
  rw [chunkDocument_length _ _ _ (by norm_num), List.length_replicate]
  decide

/-- C6 amended: for `overlap < chunkSize` the chunker produces exactly
`⌈L / (chunkSize − overlap)⌉` chunks (not `⌈(L − overlap)/(chunkSize −
overlap)⌉`): the loop keeps running while any character remains, so a final
remainder of at most `overlap` characters still yields one extra (fully
overlapped) chunk.  Empty input produces zero chunks, which the same
formula covers. -/
theorem C6_amended_chunk_count :
    ∀ (text : List Char) (chunkSize overlap : Nat), overlap < chunkSize →
      (chunkDocument text chunkSize overlap).length =
        (text.length + (chunkSize - overlap) - 1) / (chunkSize - overlap) ∧
      chunkDocument [] chunkSize overlap = [] :=
  fun text chunkSize overlap h => ⟨chunkDocument_length text chunkSize overlap h, rfl⟩

/-- C6 witness: the defaults at the counterexample length. -/
theorem C6_amended_chunk_count_witness :
    (100 : Nat) < 800 ∧
    (chunkDocument (List.replicate 750 'a') 800 100).length
      = (750 + (800 - 100) - 1) / (800 - 100) := by
  refine ⟨by norm_num, ?_⟩
  have h := (C6_amended_chunk_count (List.replicate 750 'a') 800 100 (by norm_num)).1
  rw [List.length_replicate] at h
  exact h

/-- The ranking order asserted by the claim: combined score descending,
ties broken by higher vectorScore, then by lower chunkIndex. -/
def claimRankOrder (a b : RankedChunk) : Prop :=
  b.combinedScore < a.combinedScore ∨
    (a.combinedScore = b.combinedScore ∧
      (b.vectorScore < a.vectorScore ∨
        (a.vectorScore = b.vectorScore ∧ a.chunkIndex ≤ b.chunkIndex)))

instance : DecidableRel claimRankOrder := fun a b => by
  unfold claimRankOrder; infer_instance

/-- C8 counterexample: two keyword-only chunks (equal combined score 0.3,
equal vectorScore 0) arrive in database order with chunkIndexes 5 then 2.
The sort comparator is only `b.combinedScore - a.combinedScore`; the stable
sort keeps them in insertion order `[5, 2]`, violating the claimed
lower-chunkIndex tie-break. -/
theorem C8_counterexample_no_tie_breaking :
    (hybridSearchCore [] [⟨"b", 5, none⟩, ⟨"a", 2, none⟩] 2).map
        RankedChunk.chunkIndex = [5, 2] ∧
    ¬ (hybridSearchCore [] [⟨"b", 5, none⟩, ⟨"a", 2, none⟩] 2).Pairwise
        claimRankOrder := by
  have h0 : hybridSearchCore [] [⟨"b", 5, none⟩, ⟨"a", 2, none⟩] 2
      = ((sortRanked [(0, ⟨"b", 5, 0, 1, 0 * 0.7 + 1 * 0.3⟩),
                      (1, ⟨"a", 2, 0, 1, 0 * 0.7 + 1 * 0.3⟩)]).map Prod.snd).take 2 := rfl
  have h1 : rankLE (0, ⟨"b", 5, 0, 1, 0 * 0.7 + 1 * 0.3⟩)
      (1, ⟨"a", 2, 0, 1, 0 * 0.7 + 1 * 0.3⟩) = true := by
    simp [rankLE]
  have h2 : hybridSearchCore [] [⟨"b", 5, none⟩, ⟨"a", 2, none⟩] 2
      = [⟨"b", 5, 0, 1, 0 * 0.7 + 1 * 0.3⟩, ⟨"a", 2, 0, 1, 0 * 0.7 + 1 * 0.3⟩] := by
    rw [h0]
    rw [show sortRanked [(0, (⟨"b", 5, 0, 1, 0 * 0.7 + 1 * 0.3⟩ : RankedChunk)),
          (1, ⟨"a", 2, 0, 1, 0 * 0.7 + 1 * 0.3⟩)]
        = insertRanked (0, ⟨"b", 5, 0, 1, 0 * 0.7 + 1 * 0.3⟩)
            [(1, ⟨"a", 2, 0, 1, 0 * 0.7 + 1 * 0.3⟩)] from rfl,
      insertRanked, if_pos h1]
    rfl
  rw [h2]
  refine ⟨rfl, fun hp => ?_⟩
  have := List.rel_of_pairwise_cons hp (List.mem_singleton.mpr rfl)
  simp [claimRankOrder] at this

/-- C8 amended: hybrid search returns the top-K of the merged results
ordered by `combined = 0.7·vectorScore + 0.3·keywordScore` descending, every
returned item being a merged item whose combined score satisfies that
formula; ties are left in the stable merge order (vector results first, then
keyword-only results, each in arrival order) — they are *not* re-broken by
vectorScore or chunkIndex. -/
theorem C8_amended_hybrid_ranking :
    ∀ (vec kw : List ChunkHit) (topK : Nat),
      (hybridSearchCore vec kw topK).length = min topK (withCombined vec kw).length ∧
      (hybridSearchCore vec kw topK).Pairwise
        (fun a b => b.combinedScore ≤ a.combinedScore) ∧
      ∀ x ∈ hybridSearchCore vec kw topK,
        x ∈ withCombined vec kw ∧
        x.combinedScore = x.vectorScore * 0.7 + x.keywordScore * 0.3 := by
  intro vec kw topK
  refine ⟨?_, ?_, ?_⟩
  · rw [hybridSearchCore, List.length_take, List.length_map,
      (sortRanked_perm _).length_eq, List.enum_length]
  · have hp := sortRanked_pairwise (withCombined vec kw).enum
    have hmap : ((sortRanked (withCombined vec kw).enum).map Prod.snd).Pairwise
        (fun a b : RankedChunk => b.combinedScore ≤ a.combinedScore) := by
      refine List.Pairwise.map Prod.snd (fun a b hab => ?_) hp
      simp only [rankLE, Bool.or_eq_true, Bool.and_eq_true, decide_eq_true_eq] at hab
      rcases hab with hab | ⟨habe, _⟩
      · exact le_of_lt hab
      · exact le_of_eq habe.symm
    exact List.Pairwise.sublist (List.take_sublist _ _) hmap
  · intro x hx
    have hx1 : x ∈ (sortRanked (withCombined vec kw).enum).map Prod.snd :=
      List.mem_of_mem_take hx
    rcases List.mem_map.mp hx1 with ⟨p, hp, hpx⟩
    have hpe : p ∈ (withCombined vec kw).enum := (sortRanked_perm _).subset hp
    have hxm : x ∈ withCombined vec kw := by
      rw [← hpx, ← List.enum_map_snd (withCombined vec kw)]
      exact List.mem_map_of_mem Prod.snd hpe
    refine ⟨hxm, ?_⟩
    rcases List.mem_map.mp hxm with ⟨item, _, rfl⟩
    rfl

/-- C8 witness: one vector hit and one keyword hit. -/
theorem C8_amended_hybrid_ranking_witness :
    (⟨"a", 0, (0.8 : ℚ), 0, 0.8 * 0.7 + 0 * 0.3⟩ : RankedChunk)
        ∈ withCombined [⟨"a", 0, some 0.8⟩] [⟨"b", 1, none⟩] ∧
    ((⟨"a", 0, (0.8 : ℚ), 0, 0.8 * 0.7 + 0 * 0.3⟩ : RankedChunk)).combinedScore
      = (0.8 : ℚ) * 0.7 + 0 * 0.3 := by
  have h0 : hybridSearchCore [⟨"a", 0, some 0.8⟩] [⟨"b", 1, none⟩] 2
      = ((sortRanked [(0, ⟨"a", 0, 0.8, 0, 0.8 * 0.7 + 0 * 0.3⟩),
                      (1, ⟨"b", 1, 0, 1, 0 * 0.7 + 1 * 0.3⟩)]).map Prod.snd).take 2 := rfl
  have h1 : rankLE (0, ⟨"a", 0, 0.8, 0, 0.8 * 0.7 + 0 * 0.3⟩)
      (1, ⟨"b", 1, 0, 1, 0 * 0.7 + 1 * 0.3⟩) = true := by
    simp only [rankLE, Bool.or_eq_true, Bool.and_eq_true, decide_eq_true_eq]
    left
    norm_num
  have h2 : hybridSearchCore [⟨"a", 0, some 0.8⟩] [⟨"b", 1, none⟩] 2
      = [⟨"a", 0, 0.8, 0, 0.8 * 0.7 + 0 * 0.3⟩, ⟨"b", 1, 0, 1, 0 * 0.7 + 1 * 0.3⟩] := by
    rw [h0]
    rw [show sortRanked [(0, (⟨"a", 0, 0.8, 0, 0.8 * 0.7 + 0 * 0.3⟩ : RankedChunk)),
          (1, ⟨"b", 1, 0, 1, 0 * 0.7 + 1 * 0.3⟩)]
        = insertRanked (0, ⟨"a", 0, 0.8, 0, 0.8 * 0.7 + 0 * 0.3⟩)
            [(1, ⟨"b", 1, 0, 1, 0 * 0.7 + 1 * 0.3⟩)] from rfl,
      insertRanked, if_pos h1]
    rfl
  have h := C8_amended_hybrid_ranking [⟨"a", 0, some 0.8⟩] [⟨"b", 1, none⟩] 2
  have h2m := h.2.2 ⟨"a", 0, 0.8, 0, 0.8 * 0.7 + 0 * 0.3⟩
    (by rw [h2]; exact List.mem_cons_self _ _)
  exact ⟨h2m.1, h2m.2⟩

theorem sumSq_pos (v : List ℝ) (h : ∃ x ∈ v, x ≠ 0) : 0 < sumSq v := by
  induction v with
  | nil => simp at h
  | cons y ys ih =>
    have he : sumSq (y :: ys) = y * y + sumSq ys := by simp [sumSq]
    rcases h with ⟨x, hx, hx0⟩
    rcases List.mem_cons.mp hx with hxy | hxys
    · subst hxy
      have h1 : 0 < x * x := mul_self_pos.mpr hx0
      have h2 := sumSq_nonneg ys
      rw [he]; linarith
    · have h1 := ih ⟨x, hxys, hx0⟩
      have h2 := mul_self_nonneg y
      rw [he]; linarith

theorem dotProduct_comm (a b : List ℝ) : dotProduct a b = dotProduct b a := by
  unfold dotProduct
  rw [List.zipWith_comm_of_comm (· * ·) mul_comm a b]

/-- C10: cosine similarity is symmetric and bounded in [−1, 1]; it equals 1
on any non-zero vector paired with itself; and a zero denominator or
mismatched dimensions yield 0 rather than an error (the `isNaN` guard's 0/0
case and the length guard of the source). -/
theorem C10_cosine_similarity_properties :
    (∀ a b : List ℝ, cosineSimilarity a b = cosineSimilarity b a) ∧
    (∀ a b : List ℝ, -1 ≤ cosineSimilarity a b ∧ cosineSimilarity a b ≤ 1) ∧
    (∀ v : List ℝ, (∃ x ∈ v, x ≠ 0) → cosineSimilarity v v = 1) ∧
    (∀ a b : List ℝ, a.length ≠ b.length → cosineSimilarity a b = 0) ∧
    (∀ a b : List ℝ, Real.sqrt (sumSq a) * Real.sqrt (sumSq b) = 0 →
      cosineSimilarity a b = 0) := by
  refine ⟨?_, ?_, ?_, ?_, ?_⟩
  · intro a b
    by_cases h : a.length = b.length
    · rw [cosineSimilarity, cosineSimilarity, if_neg (not_not_intro h),
        if_neg (not_not_intro h.symm), dotProduct_comm,
        mul_comm (Real.sqrt (sumSq a)) (Real.sqrt (sumSq b))]
    · rw [cosineSimilarity, cosineSimilarity, if_pos h, if_pos (fun hh => h hh.symm)]
  · intro a b
    by_cases h : a.length = b.length
    · rw [cosineSimilarity, if_neg (not_not_intro h)]
      have hDnn : 0 ≤ Real.sqrt (sumSq a) * Real.sqrt (sumSq b) :=
        mul_nonneg (Real.sqrt_nonneg _) (Real.sqrt_nonneg _)
      rcases eq_or_lt_of_le hDnn with h0 | h0
      · rw [← h0, div_zero]; norm_num
      · have hcs : |dotProduct a b| ≤ Real.sqrt (sumSq a) * Real.sqrt (sumSq b) := by
          have h1 := Real.sqrt_le_sqrt (dotProduct_sq_le a b)
          rwa [Real.sqrt_sq_eq_abs, Real.sqrt_mul (sumSq_nonneg a)] at h1
        have habs : |dotProduct a b / (Real.sqrt (sumSq a) * Real.sqrt (sumSq b))| ≤ 1 := by
          rw [abs_div, abs_of_pos h0]
          exact (div_le_one h0).mpr hcs
        exact abs_le.mp habs
    · rw [cosineSimilarity, if_pos h]; norm_num
  · intro v hv
    have hpos : 0 < sumSq v := sumSq_pos v hv
    rw [cosineSimilarity, if_neg (not_not_intro rfl)]
    have hdot : dotProduct v v = sumSq v := by
      unfold dotProduct sumSq
      rw [List.zipWith_same]
    rw [hdot, Real.mul_self_sqrt hpos.le, div_self hpos.ne.symm]
  · intro a b h
    rw [cosineSimilarity, if_pos h]
  · intro a b hd
    by_cases h : a.length = b.length
    · rw [cosineSimilarity, if_neg (not_not_intro h), hd, div_zero]
    · rw [cosineSimilarity, if_pos h]

/-- C10 witness: concrete instances of the self-similarity, mismatched
dimensions, and zero-denominator clauses. -/
theorem C10_cosine_similarity_properties_witness :
    cosineSimilarity [(3 : ℝ), 4] [3, 4] = 1 ∧
    cosineSimilarity [(1 : ℝ)] [1, 2] = 0 ∧
    cosineSimilarity [(0 : ℝ)] [5] = 0 := by
  have h := C10_cosine_similarity_properties
  refine ⟨h.2.2.1 [3, 4] ⟨3, by simp, by norm_num⟩,
    h.2.2.2.1 [1] [1, 2] (by simp),
    h.2.2.2.2 [0] [5] ?_⟩
  simp [sumSq]

end Packkit
